import Mathlib

/-!
Verification of the poll lifecycle and vote-tallying engine of
`src/server.js` (polling-system-backend).

The JavaScript state (`activePoll`, `pollResults`, `pollVotesByStudent`)
is embedded shallowly: JS objects used as dictionaries become association
lists keyed by their (string-coerced) property keys, the nullable
`activePoll` becomes an `Option Poll`, and the socket emissions of the
`submitAnswer` handler become an explicit `Emit` value.  The strict
equality `===` used for option matching is modelled on a small universe
`JSVal` of the payload values that can appear in an `optionId` field.
-/

namespace PollingSystem

/-- A JavaScript runtime value as it can appear in the `optionId` field of a
`submitAnswer` payload: a number or a string. -/
inductive JSVal where
  | num (n : Int)
  | str (s : String)
deriving DecidableEq

/-- JavaScript strict equality `===` restricted to `JSVal`: values of
different runtime types are never strictly equal. -/
def jsStrictEq : JSVal → JSVal → Bool
  | .num m, .num n => m == n
  | .str a, .str b => a == b
  | _, _ => false

/-- One entry of `activePoll.options`: `{ id: index, text: opt }`. -/
structure PollOption where
  id : Nat
  text : String
deriving DecidableEq

/-- The `activePoll` record built by the `POST /api/polls` handler.
`question` is stored as received, so a missing field is representable. -/
structure Poll where
  id : String
  question : Option String
  options : List PollOption
  durationSeconds : Int
deriving DecidableEq

/-- Association-list lookup, the embedding of JS property read `r[k]`
(`none` plays the role of `undefined`). -/
def assocGet {κ α : Type} [DecidableEq κ] (r : List (κ × α)) (k : κ) : Option α :=
  match r with
  | [] => none
  | kv :: rest => if kv.1 = k then some kv.2 else assocGet rest k

/-- Association-list update, the embedding of JS property write `r[k] = v`:
overwrite the key if present, otherwise append it. -/
def assocSet {κ α : Type} [DecidableEq κ] (r : List (κ × α)) (k : κ) (v : α) :
    List (κ × α) :=
  if r.any (fun kv => decide (kv.1 = k)) then
    r.map (fun kv => if kv.1 = k then (k, v) else kv)
  else
    r ++ [(k, v)]

/-- `pollResults`: option id ↦ vote count. -/
abbrev Tally := List (Nat × Nat)

/-- `pollVotesByStudent`: poll id ↦ the student names recorded for it
(the JS object `{name: true, ...}` viewed as the list of its keys). -/
abbrev Ledger := List (String × List String)

/-- The body of the `submitAnswer` duplicate check:
`pollVotesByStudent[pollId] && pollVotesByStudent[pollId][studentName]`. -/
def ledgerHas (L : Ledger) (pollId studentName : String) : Bool :=
  match assocGet L pollId with
  | some names => names.contains studentName
  | none => false

/-- The lines
`if (typeof pollResults[optionId] === 'undefined') { pollResults[optionId] = 0; }`
`pollResults[optionId]++;` of the valid-vote branch. -/
def bumpTally (r : Tally) (k : Nat) : Tally :=
  let r1 := if assocGet r k = none then assocSet r k 0 else r
  assocSet r1 k ((assocGet r1 k).getD 0 + 1)

/-- The shared mutable state of `server.js`: `activePoll`, `pollResults`,
`pollVotesByStudent`. -/
structure ServerState where
  activePoll : Option Poll
  pollResults : Tally
  pollVotesByStudent : Ledger
deriving DecidableEq

/-- State at process start: `activePoll = null`, both maps empty. -/
def initialState : ServerState := ⟨none, [], []⟩

/-- One element of the `updateResults` payload: `{ optionId, percentage }`.
The floating-point percentage is embedded as an exact rational. -/
structure ResultEntry where
  optionId : Nat
  percentage : Rat
deriving DecidableEq

/-- `calculatePercentages(results, currentActivePoll)` of `server.js`. -/
def calculatePercentages (results : Tally) (currentActivePoll : Option Poll) :
    List ResultEntry :=
  let totalVotes : Nat := (results.map Prod.snd).sum
  match currentActivePoll with
  | none => []
  | some poll =>
    if totalVotes = 0 then
      poll.options.map (fun opt => ⟨opt.id, 0⟩)
    else
      poll.options.map (fun opt =>
        ⟨opt.id, ((assocGet results opt.id).getD 0 : Rat) / (totalVotes : Rat) * 100⟩)

/-- The outbound effect of one `submitAnswer` invocation.  `threw` records
the `TypeError` raised by `pollVotesByStudent[pollId][studentName] = true`
when the ledger entry is absent (possible only in unreachable states). -/
inductive Emit where
  | unicastAlreadyVoted (pollId : String)
  | unicastPollEnded (pollId : String)
  | broadcastUpdateResults (results : List ResultEntry)
  | silent
  | threw
deriving DecidableEq

/-- `activePoll.options.some(opt => opt.id === optionId)`. -/
def isValidOption (opts : List PollOption) (optionId : JSVal) : Bool :=
  opts.any (fun opt => jsStrictEq (.num (opt.id : Int)) optionId)

/-- The `submitAnswer` socket handler.  Returns the state after the call and
the outbound emission.  In the valid branch the JS property key
`String(optionId)` coincides with the id of the first option matched by
`===`, which is how the tally key is obtained here.  In the `threw` branch
the tally increment has already happened when the exception fires, so the
partially mutated state is returned. -/
def submitAnswer (s : ServerState) (pollId : String) (optionId : JSVal)
    (studentName : String) : ServerState × Emit :=
  match s.activePoll with
  | some poll =>
    if poll.id = pollId then
      if ledgerHas s.pollVotesByStudent pollId studentName then
        (s, .unicastAlreadyVoted pollId)
      else
        match poll.options.find? (fun opt => jsStrictEq (.num (opt.id : Int)) optionId) with
        | some opt =>
          let newResults := bumpTally s.pollResults opt.id
          match assocGet s.pollVotesByStudent pollId with
          | some names =>
            let s' : ServerState :=
              { s with
                pollResults := newResults
                pollVotesByStudent :=
                  assocSet s.pollVotesByStudent pollId (names ++ [studentName]) }
            (s', .broadcastUpdateResults (calculatePercentages s'.pollResults (some poll)))
          | none => ({ s with pollResults := newResults }, .threw)
        | none => (s, .silent)
    else (s, .unicastPollEnded pollId)
  | none => (s, .unicastPollEnded pollId)

/-- The raw `durationSeconds` field of a `POST /api/polls` body. -/
inductive RawInput where
  | undef
  | null
  | str (s : String)
  | int (n : Int)
deriving DecidableEq

/-- A decimal digit, as `parseInt` recognises them in radix 10. -/
def jsDigit (c : Char) : Bool := '0' ≤ c && c ≤ '9'

/-- Value of a non-empty digit string. -/
def digitsVal (cs : List Char) : Nat :=
  cs.foldl (fun acc c => acc * 10 + (c.toNat - '0'.toNat)) 0

/-- `parseInt(s, 10)` on a string: skip leading whitespace, take an optional
sign, then the longest digit prefix; `NaN` (here `none`) if no digits. -/
def jsParseIntStr (s : String) : Option Int :=
  let cs := s.data.dropWhile (fun c =>
    c == ' ' || c == '\t' || c == '\n' || c == '\r' || c == '\x0b' || c == '\x0c')
  let signed : Int × List Char :=
    match cs with
    | '-' :: r => (-1, r)
    | '+' :: r => (1, r)
    | r => (1, r)
  let ds := signed.2.takeWhile jsDigit
  if ds.isEmpty then none else some (signed.1 * (digitsVal ds : Int))

/-- `parseInt(durationSeconds, 10)`: the argument is coerced to a string
first, so `undefined` and `null` give `NaN`, and an integer number prints
as its decimal digits and parses back to itself. -/
def jsParseInt : RawInput → Option Int
  | .undef => none
  | .null => none
  | .str s => jsParseIntStr s
  | .int n => some n

/-- The `POST /api/polls` handler body.  `newId` stands for the externally
produced `Date.now().toString()`.  When `options` is absent, `options.map`
raises a `TypeError` before any assignment, so the state is unchanged and
no poll is returned or broadcast (`none` in the second component); the
returned poll is both the 201 response body and the `newPoll` broadcast. -/
def createPoll (s : ServerState) (newId : String) (question : Option String)
    (options : Option (List String)) (durationSeconds : RawInput) :
    ServerState × Option Poll :=
  let parsedDurationSeconds := jsParseInt durationSeconds
  let finalDuration : Int :=
    match parsedDurationSeconds with
    | none => 60
    | some v => if v < 5 then 60 else v
  match options with
  | none => (s, none)
  | some opts =>
    let poll : Poll :=
      { id := newId
        question := question
        options := opts.enum.map (fun p => { id := p.1, text := p.2 })
        durationSeconds := finalDuration }
    let newResults : Tally := poll.options.map (fun opt => (opt.id, 0))
    let newLedger := assocSet s.pollVotesByStudent poll.id []
    ({ activePoll := some poll, pollResults := newResults, pollVotesByStudent := newLedger },
     some poll)

/-- An inbound event that can mutate the server state. -/
inductive Event where
  | create (newId : String) (question : Option String)
      (options : Option (List String)) (durationSeconds : RawInput)
  | submit (pollId : String) (optionId : JSVal) (studentName : String)

/-- State transition of one inbound event (emissions discarded). -/
def stepEvent (s : ServerState) : Event → ServerState
  | .create i q o d => (createPoll s i q o d).1
  | .submit p o n => (submitAnswer s p o n).1

/-- Run a sequence of inbound events. -/
def runEvents (s : ServerState) (es : List Event) : ServerState :=
  es.foldl stepEvent s

/-- A state the process can actually be in. -/
def Reachable (s : ServerState) : Prop :=
  ∃ es, runEvents initialState es = s

/-- Sum of all tally values: the poll's total vote count. -/
def totalTally (s : ServerState) : Nat := (s.pollResults.map Prod.snd).sum

/-- Payload of one `submitAnswer` call. -/
structure SubmitCall where
  pollId : String
  optionId : JSVal
  studentName : String

/-- By how much one `submitAnswer` call raises the total tally. -/
def submitDelta (s : ServerState) (c : SubmitCall) : Nat :=
  totalTally (submitAnswer s c.pollId c.optionId c.studentName).1 - totalTally s

/-- Total tally increase attributed to the pair `(p, n)` over a sequence of
`submitAnswer` calls starting at `s`. -/
def pairContribution (p n : String) : ServerState → List SubmitCall → Nat
  | _, [] => 0
  | s, c :: cs =>
    (if c.pollId = p ∧ c.studentName = n then submitDelta s c else 0) +
      pairContribution p n (submitAnswer s c.pollId c.optionId c.studentName).1 cs

/-- Invariant of every reachable state: when a poll is active, its ledger
entry exists, the tally keys are exactly its option ids in order, and those
ids are `0..N-1`; with no active poll the tally is empty. -/
def StateInvariant (s : ServerState) : Prop :=
  (∀ poll, s.activePoll = some poll →
      (assocGet s.pollVotesByStudent poll.id).isSome = true ∧
      s.pollResults.map Prod.fst = poll.options.map PollOption.id ∧
      poll.options.map PollOption.id = List.range poll.options.length) ∧
  (s.activePoll = none → s.pollResults = [])

/-! ### Concrete fixtures used to instantiate the theorems -/

/-- A concrete `POST /api/polls` request: two options, 30 seconds. -/
def demoCreate : Event := .create "100" (some "Color?") (some ["Red", "Blue"]) (.int 30)

/-- The state right after `demoCreate`. -/
def demoState : ServerState := runEvents initialState [demoCreate]

/-- The poll record `demoCreate` builds. -/
def demoPoll : Poll :=
  { id := "100", question := some "Color?"
    options := [{ id := 0, text := "Red" }, { id := 1, text := "Blue" }]
    durationSeconds := 30 }

/-- `demoCreate`, then Alice votes option 0 and Bob votes option 1. -/
def demoVotes : List Event :=
  [demoCreate, .submit "100" (.num 0) "Alice", .submit "100" (.num 1) "Bob"]

/-- The state after `demoVotes`. -/
def demoState2 : ServerState := runEvents initialState demoVotes

/-- A one-option poll created with `durationSeconds = "3"` (too low). -/
def demoState7 : ServerState :=
  (createPoll initialState "7" (some "Q") (some ["A"]) (.str "3")).1

/-- The poll record `demoState7`'s creation builds. -/
def demoPoll7 : Poll :=
  { id := "7", question := some "Q"
    options := [{ id := 0, text := "A" }], durationSeconds := 60 }

/-! ### Association-list lemmas -/

theorem assocGet_isSome_of_mem {κ α : Type} [DecidableEq κ] {r : List (κ × α)} {k : κ}
    (h : k ∈ r.map Prod.fst) : (assocGet r k).isSome = true := by
  induction r with
  | nil => simp at h
  | cons kv rest ih =>
    simp only [List.map_cons, List.mem_cons] at h
    by_cases hk : kv.1 = k
    · simp [assocGet, hk]
    · rcases h with h | h
      · exact absurd h.symm hk
      · simpa [assocGet, hk] using ih h

theorem assocSet_cons_ne {κ α : Type} [DecidableEq κ] {kv : κ × α} {rest : List (κ × α)}
    {k : κ} {v : α} (h : kv.1 ≠ k) :
    assocSet (kv :: rest) k v = kv :: assocSet rest k v := by
  have hd : (decide (kv.1 = k)) = false := decide_eq_false h
  unfold assocSet
  simp only [List.any_cons, hd, Bool.false_or]
  by_cases hr : (rest.any fun kv' => decide (kv'.1 = k)) = true
  · rw [if_pos hr, if_pos hr, List.map_cons, if_neg h]
  · rw [if_neg hr, if_neg hr, List.cons_append]

theorem assocSet_cons_eq {κ α : Type} [DecidableEq κ] {kv : κ × α} {rest : List (κ × α)}
    {k : κ} {v : α} (h : kv.1 = k) :
    assocSet (kv :: rest) k v =
      (k, v) :: rest.map (fun kv' => if kv'.1 = k then (k, v) else kv') := by
  unfold assocSet
  simp [List.any_cons, h]

theorem assocGet_map_overwrite_ne {κ α : Type} [DecidableEq κ] {r : List (κ × α)}
    {k k' : κ} {v : α} (h : k' ≠ k) :
    assocGet (r.map (fun kv => if kv.1 = k then (k, v) else kv)) k' = assocGet r k' := by
  induction r with
  | nil => rfl
  | cons kv rest ih =>
    simp only [List.map_cons]
    by_cases hk : kv.1 = k
    · rw [if_pos hk]
      have h1 : ¬(k = k') := Ne.symm h
      have h2 : ¬(kv.1 = k') := by rw [hk]; exact h1
      simp only [assocGet, if_neg h1, if_neg h2]
      exact ih
    · rw [if_neg hk]
      by_cases hk' : kv.1 = k'
      · simp only [assocGet, if_pos hk']
      · simp only [assocGet, if_neg hk']
        exact ih

theorem assocGet_append_single_ne {κ α : Type} [DecidableEq κ] {r : List (κ × α)}
    {k k' : κ} {v : α} (h : k' ≠ k) :
    assocGet (r ++ [(k, v)]) k' = assocGet r k' := by
  induction r with
  | nil => simp [assocGet, Ne.symm h]
  | cons kv rest ih =>
    by_cases hk : kv.1 = k' <;> simp [assocGet, hk, ih]

theorem assocGet_assocSet_self {κ α : Type} [DecidableEq κ] (r : List (κ × α)) (k : κ) (v : α) :
    assocGet (assocSet r k v) k = some v := by
  induction r with
  | nil => simp [assocSet, assocGet]
  | cons kv rest ih =>
    by_cases hk : kv.1 = k
    · rw [assocSet_cons_eq hk]; simp [assocGet]
    · rw [assocSet_cons_ne hk]; simpa [assocGet, hk] using ih

theorem assocGet_assocSet_ne {κ α : Type} [DecidableEq κ] (r : List (κ × α)) {k k' : κ}
    (v : α) (h : k' ≠ k) :
    assocGet (assocSet r k v) k' = assocGet r k' := by
  unfold assocSet
  split
  · exact assocGet_map_overwrite_ne h
  · exact assocGet_append_single_ne h

theorem assocSet_keys_of_mem {κ α : Type} [DecidableEq κ] {r : List (κ × α)} {k : κ} (v : α)
    (h : k ∈ r.map Prod.fst) :
    (assocSet r k v).map Prod.fst = r.map Prod.fst := by
  have hany : r.any (fun kv => decide (kv.1 = k)) = true := by
    rw [List.any_eq_true]
    rcases List.mem_map.mp h with ⟨kv, hkv, hfst⟩
    exact ⟨kv, hkv, by simp [hfst]⟩
  unfold assocSet
  rw [if_pos hany, List.map_map]
  apply List.map_congr_left
  intro kv _
  by_cases hk : kv.1 = k <;> simp [hk, Function.comp]

theorem map_overwrite_eq_self_of_not_mem {κ α : Type} [DecidableEq κ] {r : List (κ × α)}
    {k : κ} {v : α} (h : k ∉ r.map Prod.fst) :
    r.map (fun kv => if kv.1 = k then (k, v) else kv) = r := by
  induction r with
  | nil => rfl
  | cons kv rest ih =>
    simp only [List.map_cons, List.mem_cons, not_or] at h
    rcases h with ⟨h1, h2⟩
    simp only [List.map_cons]
    rw [if_neg (fun e => h1 e.symm), ih h2]

theorem sum_assocSet_overwrite {r : Tally} {k : Nat} {u : Nat} (v : Nat)
    (hnd : (r.map Prod.fst).Nodup) (hu : assocGet r k = some u) :
    ((assocSet r k v).map Prod.snd).sum + u = (r.map Prod.snd).sum + v := by
  induction r with
  | nil => simp [assocGet] at hu
  | cons kv rest ih =>
    simp only [List.map_cons, List.nodup_cons] at hnd
    by_cases hk : kv.1 = k
    · rw [assocSet_cons_eq hk]
      have hself : rest.map (fun kv' => if kv'.1 = k then (k, v) else kv') = rest :=
        map_overwrite_eq_self_of_not_mem (by rw [← hk]; exact hnd.1)
    -- the head is the unique entry for `k`, so `u` is its value
      have hu' : kv.2 = u := by simpa [assocGet, hk] using hu
      rw [hself]
      simp only [List.map_cons, List.sum_cons]
      omega
    · rw [assocSet_cons_ne hk]
      have hu' : assocGet rest k = some u := by simpa [assocGet, hk] using hu
      have := ih hnd.2 hu'
      simp only [List.map_cons, List.sum_cons]
      omega

theorem assocGet_bumpTally_self (r : Tally) (k : Nat) :
    assocGet (bumpTally r k) k = some ((assocGet r k).getD 0 + 1) := by
  unfold bumpTally
  by_cases h : assocGet r k = none
  · simp [h, assocGet_assocSet_self]
  · simp [h, assocGet_assocSet_self]

theorem assocGet_bumpTally_ne (r : Tally) {k k' : Nat} (h : k' ≠ k) :
    assocGet (bumpTally r k) k' = assocGet r k' := by
  unfold bumpTally
  by_cases hn : assocGet r k = none <;>
    simp [hn, assocGet_assocSet_ne _ _ h]

theorem bumpTally_keys_of_mem {r : Tally} {k : Nat} (h : k ∈ r.map Prod.fst) :
    (bumpTally r k).map Prod.fst = r.map Prod.fst := by
  unfold bumpTally
  have hne : ¬assocGet r k = none := by
    have := assocGet_isSome_of_mem h
    cases heq : assocGet r k with
    | none => rw [heq] at this; simp at this
    | some _ => simp
  simp only [if_neg hne]
  exact assocSet_keys_of_mem _ h

theorem sum_bumpTally_of_mem {r : Tally} {k : Nat}
    (hnd : (r.map Prod.fst).Nodup) (h : k ∈ r.map Prod.fst) :
    ((bumpTally r k).map Prod.snd).sum = (r.map Prod.snd).sum + 1 := by
  obtain ⟨u, hu⟩ : ∃ u, assocGet r k = some u :=
    Option.isSome_iff_exists.mp (assocGet_isSome_of_mem h)
  unfold bumpTally
  simp only [hu]
  have hne : ¬(some u = none) := by simp
  simp only [if_neg hne, Option.getD_some]
  have h1 := sum_assocSet_overwrite ((assocGet r k).getD 0 + 1) hnd hu
  have h2 : (assocGet r k).getD 0 = u := by rw [hu]; rfl
  omega

theorem map_assocGet_eq_values {r : Tally} {ids : List Nat}
    (hk : r.map Prod.fst = ids) (hnd : ids.Nodup) :
    ids.map (fun k => (assocGet r k).getD 0) = r.map Prod.snd := by
  induction r generalizing ids with
  | nil => subst hk; rfl
  | cons kv rest ih =>
    subst hk
    simp only [List.map_cons, List.nodup_cons] at hnd ⊢
    congr 1
    · simp [assocGet]
    · rw [← ih rfl hnd.2]
      apply List.map_congr_left
      intro j hj
      have hne : kv.1 ≠ j := fun e => hnd.1 (e ▸ hj)
      simp [assocGet, hne]

/-! ### Case analysis of the `submitAnswer` handler -/

/-- Every `submitAnswer` call either leaves the state unchanged (rejection
branches), performs a full valid vote, or increments the tally and then
throws because the ledger entry is absent. -/
theorem submitAnswer_state_cases (s : ServerState) (p : String) (o : JSVal) (n : String) :
    (submitAnswer s p o n).1 = s ∨
    (∃ poll opt names,
      s.activePoll = some poll ∧ poll.id = p ∧
      ledgerHas s.pollVotesByStudent p n = false ∧
      poll.options.find? (fun opt' => jsStrictEq (.num (opt'.id : Int)) o) = some opt ∧
      assocGet s.pollVotesByStudent p = some names ∧
      (submitAnswer s p o n).1 =
        { activePoll := s.activePoll
          pollResults := bumpTally s.pollResults opt.id
          pollVotesByStudent := assocSet s.pollVotesByStudent p (names ++ [n]) }) ∨
    (∃ poll opt,
      s.activePoll = some poll ∧ poll.id = p ∧
      assocGet s.pollVotesByStudent p = none ∧
      poll.options.find? (fun opt' => jsStrictEq (.num (opt'.id : Int)) o) = some opt ∧
      (submitAnswer s p o n).1 =
        { activePoll := s.activePoll
          pollResults := bumpTally s.pollResults opt.id
          pollVotesByStudent := s.pollVotesByStudent }) := by
  cases hap : s.activePoll with
  | none => left; simp [submitAnswer, hap]
  | some poll =>
    by_cases hid : poll.id = p
    · by_cases hled : ledgerHas s.pollVotesByStudent p n = true
      · left; simp [submitAnswer, hap, hid, hled]
      · cases hfind : poll.options.find? (fun opt' => jsStrictEq (.num (opt'.id : Int)) o) with
        | none => left; simp [submitAnswer, hap, hid, hled, hfind]
        | some opt =>
          cases hget : assocGet s.pollVotesByStudent p with
          | some names =>
            right; left
            refine ⟨poll, opt, names, rfl, hid, by simpa using hled, hfind, rfl, ?_⟩
            simp [submitAnswer, hap, hid, hled, hfind, hget]
          | none =>
            right; right
            refine ⟨poll, opt, rfl, hid, rfl, hfind, ?_⟩
            simp [submitAnswer, hap, hid, hled, hfind, hget]
    · left; simp [submitAnswer, hap, hid]

/-- The handler never changes which poll is active. -/
theorem submitAnswer_activePoll (s : ServerState) (p : String) (o : JSVal) (n : String) :
    (submitAnswer s p o n).1.activePoll = s.activePoll := by
  rcases submitAnswer_state_cases s p o n with h | ⟨_, _, _, _, _, _, _, _, h⟩ |
    ⟨_, _, _, _, _, _, h⟩ <;> rw [h]

/-- A call by a student already recorded for `p` leaves the state unchanged. -/
theorem submitAnswer_fst_of_voted {s : ServerState} {p n : String} (o : JSVal)
    (h : ledgerHas s.pollVotesByStudent p n = true) :
    (submitAnswer s p o n).1 = s := by
  cases hap : s.activePoll with
  | none => simp [submitAnswer, hap]
  | some poll =>
    by_cases hid : poll.id = p
    · simp [submitAnswer, hap, hid, h]
    · simp [submitAnswer, hap, hid]

/-- Evaluating `ledgerHas` when the ledger entry is known. -/
theorem ledgerHas_eq_some {L : Ledger} {p : String} {names : List String}
    (h : assocGet L p = some names) (n : String) :
    ledgerHas L p n = names.contains n := by
  unfold ledgerHas
  rw [h]

/-- Recorded names are never removed by a `submitAnswer` call. -/
theorem ledgerHas_mono (s : ServerState) (p' : String) (o' : JSVal) (n' : String)
    {p n : String} (h : ledgerHas s.pollVotesByStudent p n = true) :
    ledgerHas (submitAnswer s p' o' n').1.pollVotesByStudent p n = true := by
  rcases submitAnswer_state_cases s p' o' n' with heq |
    ⟨poll, opt, names, _, _, _, _, hget, heq⟩ | ⟨poll, opt, _, _, _, _, heq⟩
  · rw [heq]; exact h
  · rw [heq]
    show ledgerHas (assocSet s.pollVotesByStudent p' (names ++ [n'])) p n = true
    by_cases hp : p = p'
    · subst hp
      rw [ledgerHas_eq_some (assocGet_assocSet_self _ _ _) n]
      rw [ledgerHas_eq_some hget n] at h
      exact List.elem_iff.mpr (List.mem_append_left _ (List.elem_iff.mp h))
    · unfold ledgerHas at h ⊢
      rw [assocGet_assocSet_ne _ _ hp]
      exact h
  · rw [heq]; exact h

/-- `StateInvariant` is preserved by every `submitAnswer` call. -/
theorem submitAnswer_preserves_invariant {s : ServerState} (hinv : StateInvariant s)
    (p : String) (o : JSVal) (n : String) :
    StateInvariant (submitAnswer s p o n).1 := by
  rcases submitAnswer_state_cases s p o n with heq |
    ⟨poll, opt, names, hap, hid, _, hfind, hget, heq⟩ |
    ⟨poll, opt, hap, hid, hget, hfind, heq⟩
  · rw [heq]; exact hinv
  · rw [heq]
    obtain ⟨hledger, hkeys, hrange⟩ := hinv.1 poll hap
    have hoptmem : opt ∈ poll.options := List.mem_of_find?_eq_some hfind
    have hkeymem : opt.id ∈ s.pollResults.map Prod.fst := by
      rw [hkeys]
      exact List.mem_map.mpr ⟨opt, hoptmem, rfl⟩
    constructor
    · intro poll' hsome
      have hsome' : some poll = some poll' := by rw [← hap]; exact hsome
      have hpoll : poll = poll' := Option.some.inj hsome'
      subst hpoll
      refine ⟨?_, ?_, hrange⟩
      · show (assocGet (assocSet s.pollVotesByStudent p (names ++ [n])) poll.id).isSome = true
        rw [hid, assocGet_assocSet_self]
        rfl
      · show (bumpTally s.pollResults opt.id).map Prod.fst = poll.options.map PollOption.id
        rw [bumpTally_keys_of_mem hkeymem]
        exact hkeys
    · intro hnone
      have : s.activePoll = none := hnone
      rw [hap] at this
      exact absurd this (by simp)
  · exfalso
    obtain ⟨hledger, _, _⟩ := hinv.1 poll hap
    rw [hid, hget] at hledger
    simp at hledger

/-- From an invariant-respecting state, a `submitAnswer` call either keeps
the total tally or raises it by one while recording the voter. -/
theorem submitAnswer_total_cases {s : ServerState} (hinv : StateInvariant s)
    (p : String) (o : JSVal) (n : String) :
    totalTally (submitAnswer s p o n).1 = totalTally s ∨
    (totalTally (submitAnswer s p o n).1 = totalTally s + 1 ∧
      ledgerHas (submitAnswer s p o n).1.pollVotesByStudent p n = true) := by
  rcases submitAnswer_state_cases s p o n with heq |
    ⟨poll, opt, names, hap, hid, _, hfind, hget, heq⟩ |
    ⟨poll, opt, hap, hid, hget, hfind, heq⟩
  · left; rw [heq]
  · right
    obtain ⟨_, hkeys, hrange⟩ := hinv.1 poll hap
    have hnd : (s.pollResults.map Prod.fst).Nodup := by
      rw [hkeys, hrange]; exact List.nodup_range _
    have hkeymem : opt.id ∈ s.pollResults.map Prod.fst := by
      rw [hkeys]
      exact List.mem_map.mpr ⟨opt, List.mem_of_find?_eq_some hfind, rfl⟩
    constructor
    · rw [heq]
      show ((bumpTally s.pollResults opt.id).map Prod.snd).sum = totalTally s + 1
      exact sum_bumpTally_of_mem hnd hkeymem
    · rw [heq]
      show ledgerHas (assocSet s.pollVotesByStudent p (names ++ [n])) p n = true
      rw [ledgerHas_eq_some (assocGet_assocSet_self _ _ _) n]
      exact List.elem_iff.mpr (List.mem_append_right _ (List.mem_singleton.mpr rfl))
  · exfalso
    obtain ⟨hledger, _, _⟩ := hinv.1 poll hap
    rw [hid, hget] at hledger
    simp at hledger

/-- `StateInvariant` is preserved by the `POST /api/polls` handler. -/
theorem createPoll_preserves_invariant {s : ServerState} (hinv : StateInvariant s)
    (newId : String) (question : Option String) (options : Option (List String))
    (durationSeconds : RawInput) :
    StateInvariant (createPoll s newId question options durationSeconds).1 := by
  cases options with
  | none => exact hinv
  | some opts =>
    constructor
    · intro poll' hsome
      have hpoll := Option.some.inj hsome
      subst hpoll
      refine ⟨?_, ?_, ?_⟩
      · show (assocGet (assocSet s.pollVotesByStudent newId []) newId).isSome = true
        rw [assocGet_assocSet_self]
        rfl
      · show ((opts.enum.map fun pr => ({ id := pr.1, text := pr.2 } : PollOption)).map
            (fun opt => (opt.id, 0))).map Prod.fst =
          (opts.enum.map fun pr => ({ id := pr.1, text := pr.2 } : PollOption)).map PollOption.id
        simp only [List.map_map]
        rfl
      · show (opts.enum.map fun pr => ({ id := pr.1, text := pr.2 } : PollOption)).map
            PollOption.id = List.range _
        rw [List.map_map, List.length_map]
        have : (PollOption.id ∘ fun pr : Nat × String => ({ id := pr.1, text := pr.2 } : PollOption)) =
            Prod.fst := rfl
        rw [this, List.enum_map_fst, List.enum_length]
    · intro hnone
      exact absurd hnone (by simp [createPoll])

/-- `StateInvariant` holds initially. -/
theorem initialState_invariant : StateInvariant initialState := by
  constructor
  · intro poll h
    exact absurd h (by simp [initialState])
  · intro _
    rfl

/-- `StateInvariant` is preserved by any inbound event. -/
theorem stepEvent_preserves_invariant {s : ServerState} (hinv : StateInvariant s)
    (e : Event) : StateInvariant (stepEvent s e) := by
  cases e with
  | create i q o d => exact createPoll_preserves_invariant hinv i q o d
  | submit p o n => exact submitAnswer_preserves_invariant hinv p o n

/-- `StateInvariant` holds after any event sequence from an invariant state. -/
theorem runEvents_preserves_invariant {s : ServerState} (hinv : StateInvariant s)
    (es : List Event) : StateInvariant (runEvents s es) := by
  induction es generalizing s with
  | nil => exact hinv
  | cons e es ih => exact ih (stepEvent_preserves_invariant hinv e)

/-- Every reachable state satisfies the invariant. -/
theorem reachable_invariant {s : ServerState} (h : Reachable s) : StateInvariant s := by
  obtain ⟨es, hes⟩ := h
  rw [← hes]
  exact runEvents_preserves_invariant initialState_invariant es

/-! ### The one-vote-per-student property -/

/-- Core induction: under the state invariant, a pair `(p, n)` contributes at
most one tally increment over a submission sequence, and contributes nothing
once `n` is recorded in the ledger entry for `p`. -/
theorem pairContribution_spec (p n : String) (calls : List SubmitCall) :
    ∀ s, StateInvariant s →
      pairContribution p n s calls ≤ 1 ∧
      (ledgerHas s.pollVotesByStudent p n = true → pairContribution p n s calls = 0) := by
  induction calls with
  | nil =>
    intro s _
    exact ⟨by simp [pairContribution], fun _ => rfl⟩
  | cons c cs ih =>
    intro s hinv
    have hinv' := submitAnswer_preserves_invariant hinv c.pollId c.optionId c.studentName
    have hunfold : pairContribution p n s (c :: cs) =
        (if c.pollId = p ∧ c.studentName = n then submitDelta s c else 0) +
          pairContribution p n (submitAnswer s c.pollId c.optionId c.studentName).1 cs := rfl
    by_cases hled : ledgerHas s.pollVotesByStudent p n = true
    · have htail : pairContribution p n (submitAnswer s c.pollId c.optionId c.studentName).1 cs = 0 :=
        (ih _ hinv').2 (ledgerHas_mono s c.pollId c.optionId c.studentName hled)
      have hD : (if c.pollId = p ∧ c.studentName = n then submitDelta s c else 0) = 0 := by
        by_cases hm : c.pollId = p ∧ c.studentName = n
        · rw [if_pos hm]
          have hv : ledgerHas s.pollVotesByStudent c.pollId c.studentName = true := by
            rw [hm.1, hm.2]; exact hled
          unfold submitDelta
          rw [submitAnswer_fst_of_voted c.optionId hv]
          exact Nat.sub_self _
        · rw [if_neg hm]
      constructor
      · rw [hunfold, hD, htail]; exact Nat.zero_le 1
      · intro _; rw [hunfold, hD, htail]
    · constructor
      · by_cases hm : c.pollId = p ∧ c.studentName = n
        · rcases submitAnswer_total_cases hinv c.pollId c.optionId c.studentName with htot |
            ⟨htot, hled'⟩
          · have hD : submitDelta s c = 0 := by
              unfold submitDelta; rw [htot]; exact Nat.sub_self _
            have htail := (ih _ hinv').1
            rw [hunfold, if_pos hm, hD]
            simpa using htail
          · have hD : submitDelta s c = 1 := by
              unfold submitDelta; rw [htot]; omega
            have hmem : ledgerHas (submitAnswer s c.pollId c.optionId c.studentName).1.pollVotesByStudent p n = true := by
              rw [← hm.1, ← hm.2]; exact hled'
            have htail := (ih _ hinv').2 hmem
            rw [hunfold, if_pos hm, hD, htail]
        · have htail := (ih _ hinv').1
          rw [hunfold, if_neg hm]
          simpa using htail
      · intro h; exact absurd h hled

/-- C1: from any reachable state, a `(pollId, studentName)` pair contributes
at most 1 to the total tally sum across any sequence of `submitAnswer`
calls, no matter how often the pair is submitted. -/
theorem submit_pair_contributes_at_most_one {s : ServerState} (p n : String)
    (calls : List SubmitCall) (h : Reachable s) :
    pairContribution p n s calls ≤ 1 :=
  (pairContribution_spec p n calls s (reachable_invariant h)).1

/-- Witness for C1: three submissions by Alice on the demo poll contribute
at most one tally increment. -/
theorem submit_pair_contributes_at_most_one_witness :
    Reachable demoState ∧
    pairContribution "100" "Alice" demoState
      [⟨"100", JSVal.num 0, "Alice"⟩, ⟨"100", JSVal.num 1, "Alice"⟩,
        ⟨"100", JSVal.num 0, "Alice"⟩] ≤ 1 :=
  ⟨⟨[demoCreate], rfl⟩,
    submit_pair_contributes_at_most_one "100" "Alice" _ ⟨[demoCreate], rfl⟩⟩

/-! ### Option-validity helpers -/

/-- If `Array.prototype.some` fails, `Array.prototype.find`-style search
fails too (unused-match characterisation of the silent branch). -/
theorem find?_eq_none_of_not_valid {opts : List PollOption} {v : JSVal}
    (h : isValidOption opts v = false) :
    opts.find? (fun opt => jsStrictEq (.num (opt.id : Int)) v) = none := by
  rw [List.find?_eq_none]
  intro opt hmem heq
  have : isValidOption opts v = true :=
    List.any_eq_true.mpr ⟨opt, hmem, heq⟩
  rw [h] at this
  exact Bool.noConfusion this

/-- A string `optionId` is strictly equal to no numeric option id. -/
theorem isValidOption_str (opts : List PollOption) (w : String) :
    isValidOption opts (JSVal.str w) = false := by
  rw [isValidOption, List.any_eq_false]
  intro opt _
  intro heq
  exact Bool.noConfusion heq

/-! ### Claim theorems: the submitAnswer handler -/

/-- C2: when a poll is active, `pollId` matches it, `studentName` is not in
the poll's ledger entry, and `optionId` strictly matches an option id, the
call increments that option's tally entry by exactly 1 (all other entries
unchanged), records the student in the ledger entry, and broadcasts the
recomputed percentages to all subscribers. -/
theorem submitAnswer_valid_vote (s : ServerState) (poll : Poll) (pollId : String)
    (optionId : JSVal) (studentName : String) (names : List String) (opt : PollOption)
    (hactive : s.activePoll = some poll) (hid : poll.id = pollId)
    (hentry : assocGet s.pollVotesByStudent pollId = some names)
    (hnew : studentName ∉ names)
    (hfind : poll.options.find? (fun o => jsStrictEq (.num (o.id : Int)) optionId) = some opt) :
    assocGet (submitAnswer s pollId optionId studentName).1.pollResults opt.id =
      some ((assocGet s.pollResults opt.id).getD 0 + 1) ∧
    (∀ k, k ≠ opt.id →
      assocGet (submitAnswer s pollId optionId studentName).1.pollResults k =
        assocGet s.pollResults k) ∧
    ledgerHas (submitAnswer s pollId optionId studentName).1.pollVotesByStudent
      pollId studentName = true ∧
    (submitAnswer s pollId optionId studentName).2 =
      Emit.broadcastUpdateResults
        (calculatePercentages (submitAnswer s pollId optionId studentName).1.pollResults
          (some poll)) := by
  have hled : ledgerHas s.pollVotesByStudent pollId studentName = false := by
    rw [ledgerHas_eq_some hentry]
    cases hc : names.contains studentName
    · rfl
    · exact absurd (List.elem_iff.mp hc) hnew
  have hres : submitAnswer s pollId optionId studentName =
      ({ s with
          pollResults := bumpTally s.pollResults opt.id
          pollVotesByStudent := assocSet s.pollVotesByStudent pollId (names ++ [studentName]) },
        Emit.broadcastUpdateResults
          (calculatePercentages (bumpTally s.pollResults opt.id) (some poll))) := by
    simp [submitAnswer, hactive, hid, hled, hfind, hentry]
  refine ⟨?_, ?_, ?_, ?_⟩
  · rw [hres]
    exact assocGet_bumpTally_self _ _
  · intro k hk
    rw [hres]
    exact assocGet_bumpTally_ne _ hk
  · rw [hres]
    show ledgerHas (assocSet s.pollVotesByStudent pollId (names ++ [studentName]))
      pollId studentName = true
    rw [ledgerHas_eq_some (assocGet_assocSet_self _ _ _) studentName]
    exact List.elem_iff.mpr (List.mem_append_right _ (List.mem_singleton.mpr rfl))
  · rw [hres]

/-- Witness for C2: Alice's first vote on the demo poll is recorded. -/
theorem submitAnswer_valid_vote_witness :
    ledgerHas (submitAnswer demoState "100" (JSVal.num 0) "Alice").1.pollVotesByStudent
      "100" "Alice" = true :=
  (submitAnswer_valid_vote demoState demoPoll "100" (JSVal.num 0) "Alice" []
    { id := 0, text := "Red" } rfl rfl rfl (List.not_mem_nil _) rfl).2.2.1

/-- C4: when a poll is active, `pollId` matches it, and the ledger entry for
`pollId` already contains `studentName`, the call emits `alreadyVoted` to
the submitting client only and mutates no state. -/
theorem submitAnswer_already_voted (s : ServerState) (poll : Poll) (pollId : String)
    (optionId : JSVal) (studentName : String)
    (hactive : s.activePoll = some poll) (hid : poll.id = pollId)
    (hvoted : ledgerHas s.pollVotesByStudent pollId studentName = true) :
    submitAnswer s pollId optionId studentName = (s, Emit.unicastAlreadyVoted pollId) := by
  simp [submitAnswer, hactive, hid, hvoted]

/-- Witness for C4: Alice's second vote yields `alreadyVoted` and no change. -/
theorem submitAnswer_already_voted_witness :
    submitAnswer demoState2 "100" (JSVal.num 0) "Alice" =
      (demoState2, Emit.unicastAlreadyVoted "100") :=
  submitAnswer_already_voted demoState2 demoPoll "100" (JSVal.num 0) "Alice"
    rfl rfl (by decide)

/-- C5: when no poll is active, or `pollId` differs from the active poll's
identifier, the call emits `pollEnded` to the submitting client only and
mutates no state. -/
theorem submitAnswer_poll_ended (s : ServerState) (pollId : String) (optionId : JSVal)
    (studentName : String)
    (h : s.activePoll = none ∨ ∃ poll, s.activePoll = some poll ∧ poll.id ≠ pollId) :
    submitAnswer s pollId optionId studentName = (s, Emit.unicastPollEnded pollId) := by
  rcases h with h | ⟨poll, hap, hne⟩
  · simp [submitAnswer, h]
  · simp [submitAnswer, hap, hne]

/-- Witness for C5: a vote against a stale poll id is rejected. -/
theorem submitAnswer_poll_ended_witness :
    submitAnswer demoState "999" (JSVal.num 0) "Carl" =
      (demoState, Emit.unicastPollEnded "999") :=
  submitAnswer_poll_ended demoState "999" (JSVal.num 0) "Carl"
    (Or.inr ⟨demoPoll, rfl, by decide⟩)

/-- C6: when a poll is active, `pollId` matches it, the student has not
voted, but `optionId` matches no option id, the call emits nothing to any
client and mutates no state. -/
theorem submitAnswer_invalid_option_silent (s : ServerState) (poll : Poll)
    (pollId : String) (optionId : JSVal) (studentName : String)
    (hactive : s.activePoll = some poll) (hid : poll.id = pollId)
    (hnew : ledgerHas s.pollVotesByStudent pollId studentName = false)
    (hinvalid : isValidOption poll.options optionId = false) :
    submitAnswer s pollId optionId studentName = (s, Emit.silent) := by
  simp [submitAnswer, hactive, hid, hnew, find?_eq_none_of_not_valid hinvalid]

/-- Witness for C6: option id 5 does not exist in the demo poll. -/
theorem submitAnswer_invalid_option_silent_witness :
    submitAnswer demoState "100" (JSVal.num 5) "Carl" = (demoState, Emit.silent) :=
  submitAnswer_invalid_option_silent demoState demoPoll "100" (JSVal.num 5) "Carl"
    rfl rfl (by decide) (by decide)

/-- C10: a string `optionId` (even the decimal spelling of an existing
integer option id) is silently rejected with no state mutation and no
outbound event, because `===` never equates a string with a number. -/
theorem submitAnswer_string_optionId_silent (s : ServerState) (poll : Poll)
    (pollId : String) (w : String) (studentName : String) (opt : PollOption)
    (hactive : s.activePoll = some poll) (hid : poll.id = pollId)
    (hnew : ledgerHas s.pollVotesByStudent pollId studentName = false)
    (_hopt : opt ∈ poll.options) (_hw : w = toString opt.id) :
    submitAnswer s pollId (JSVal.str w) studentName = (s, Emit.silent) := by
  simp [submitAnswer, hactive, hid, hnew,
    find?_eq_none_of_not_valid (isValidOption_str poll.options w)]

/-- Witness for C10: the string "0" is rejected although option 0 exists. -/
theorem submitAnswer_string_optionId_silent_witness :
    submitAnswer demoState "100" (JSVal.str "0") "Carl" = (demoState, Emit.silent) :=
  submitAnswer_string_optionId_silent demoState demoPoll "100" "0" "Carl"
    { id := 0, text := "Red" } rfl rfl (by decide) (by decide) rfl

/-! ### Claim theorems: the POST /api/polls handler -/

/-- C7: the stored duration is 60 whenever parsing fails or yields a value
below 5, and is the parsed value whenever that value is at least 5 (no
upper bound). -/
theorem createPoll_duration (s : ServerState) (newId : String) (question : Option String)
    (opts : List String) (raw : RawInput) (s' : ServerState) (poll : Poll)
    (h : createPoll s newId question (some opts) raw = (s', some poll)) :
    (jsParseInt raw = none → poll.durationSeconds = 60) ∧
    (∀ v, jsParseInt raw = some v → v < 5 → poll.durationSeconds = 60) ∧
    (∀ v, jsParseInt raw = some v → 5 ≤ v → poll.durationSeconds = v) := by
  have hp := congrArg Prod.snd h
  simp only [createPoll] at hp
  have hpoll := Option.some.inj hp
  have hd : poll.durationSeconds =
      (match jsParseInt raw with
       | none => 60
       | some v => if v < 5 then 60 else v) := by
    rw [← hpoll]
  refine ⟨?_, ?_, ?_⟩
  · intro hnone
    rw [hd, hnone]
  · intro v hv hlt
    rw [hd, hv]
    simp [hlt]
  · intro v hv hge
    rw [hd, hv]
    simp [Int.not_lt.mpr hge]

/-- Witness for C7: the string "3" parses to 3 < 5, so 60 is stored. -/
theorem createPoll_duration_witness : demoPoll7.durationSeconds = 60 :=
  (createPoll_duration initialState "7" (some "Q") ["A"] (.str "3")
    demoState7 demoPoll7 rfl).2.1 3 rfl (by decide)

/-- C8: creating a poll with N options yields option ids exactly 0..N-1 in
input order, a tally mapping exactly those ids to 0, a fresh empty ledger
entry for the new poll's id, and the new poll as the active poll. -/
theorem createPoll_initializes (s : ServerState) (newId : String)
    (question : Option String) (opts : List String) (raw : RawInput)
    (s' : ServerState) (poll : Poll)
    (h : createPoll s newId question (some opts) raw = (s', some poll)) :
    poll.options.map PollOption.id = List.range opts.length ∧
    poll.options.map PollOption.text = opts ∧
    s'.pollResults = (List.range opts.length).map (fun i => (i, 0)) ∧
    assocGet s'.pollVotesByStudent poll.id = some [] ∧
    s'.activePoll = some poll := by
  have hs' := congrArg Prod.fst h
  have hp := congrArg Prod.snd h
  simp only [createPoll] at hs' hp
  have hpoll := Option.some.inj hp
  have hids0 : (opts.enum.map fun pr => ({ id := pr.1, text := pr.2 } : PollOption)).map
      PollOption.id = List.range opts.length := by
    rw [List.map_map]
    have : (PollOption.id ∘ fun pr : Nat × String =>
        ({ id := pr.1, text := pr.2 } : PollOption)) = Prod.fst := rfl
    rw [this, List.enum_map_fst]
  have hids : poll.options.map PollOption.id = List.range opts.length := by
    rw [← hpoll]
    exact hids0
  refine ⟨hids, ?_, ?_, ?_, ?_⟩
  · rw [← hpoll]
    show (opts.enum.map fun pr => ({ id := pr.1, text := pr.2 } : PollOption)).map
      PollOption.text = opts
    rw [List.map_map]
    have : (PollOption.text ∘ fun pr : Nat × String =>
        ({ id := pr.1, text := pr.2 } : PollOption)) = Prod.snd := rfl
    rw [this, List.enum_map_snd]
  · rw [← hs']
    show (opts.enum.map fun pr => ({ id := pr.1, text := pr.2 } : PollOption)).map
      (fun opt => (opt.id, 0)) = (List.range opts.length).map (fun i => (i, 0))
    have h1 : ((opts.enum.map fun pr => ({ id := pr.1, text := pr.2 } : PollOption)).map
        PollOption.id).map (fun i => (i, 0)) =
        (opts.enum.map fun pr => ({ id := pr.1, text := pr.2 } : PollOption)).map
          (fun opt => (opt.id, 0)) := by
      rw [List.map_map]
      rfl
    rw [← h1, hids0]
  · rw [← hs', ← hpoll]
    show assocGet (assocSet s.pollVotesByStudent newId []) newId = some []
    exact assocGet_assocSet_self _ _ _
  · rw [← hs', ← hpoll]

/-- Witness for C8: the demo poll's creation initializes ids, tally and
ledger entry as stated. -/
theorem createPoll_initializes_witness :
    assocGet demoState.pollVotesByStudent demoPoll.id = some [] ∧
    demoState.pollResults = [(0, 0), (1, 0)] :=
  ⟨(createPoll_initializes initialState "100" (some "Color?") ["Red", "Blue"]
      (.int 30) demoState demoPoll rfl).2.2.2.1,
   ((createPoll_initializes initialState "100" (some "Color?") ["Red", "Blue"]
      (.int 30) demoState demoPoll rfl).2.2.1).trans (by decide)⟩

/-- C9 counterexample: a `POST /api/polls` body with `options` missing makes
`options.map` raise a TypeError, so, contrary to the claim, no poll is
created, returned or broadcast (and the state is unchanged). -/
theorem createPoll_missing_options_counterexample :
    createPoll initialState "1" (some "Q?") none RawInput.undef = (initialState, none) :=
  rfl

/-- C9 amended: whenever the `options` field is present as a sequence
(question may be missing or empty, the sequence may be empty, and
`durationSeconds` may be arbitrarily malformed), the handler raises no
error: the new poll is returned (and broadcast) and becomes the active
poll.  A body with `options` missing instead raises a per-request
TypeError that creates and mutates nothing. -/
theorem createPoll_no_error_when_options_present (s : ServerState) (newId : String)
    (question : Option String) (opts : List String) (raw : RawInput) :
    ∃ poll, (createPoll s newId question (some opts) raw).2 = some poll ∧
      (createPoll s newId question (some opts) raw).1.activePoll = some poll := by
  refine ⟨_, rfl, rfl⟩

/-! ### Claim theorem: calculatePercentages -/

/-- Linearity of the per-option percentage map. -/
theorem sum_map_div_mul (l : List Nat) (T : Rat) :
    (l.map (fun x : Nat => (x : Rat) / T * 100)).sum =
      (l.map (fun x : Nat => (x : Rat))).sum / T * 100 := by
  induction l with
  | nil => simp
  | cons x xs ih =>
    simp only [List.map_cons, List.sum_cons, ih, add_div, add_mul]

/-- C3: with an active poll, `calculatePercentages` returns, in the poll's
option order, `count / total * 100` for each option (an exact ratio; when
`total = 0` every percentage is 0, as `x / 0 = 0` in `ℚ`); the percentages
sum to exactly 100 whenever `total > 0`, and are all 0 when `total = 0`. -/
theorem calculatePercentages_spec {s : ServerState} {poll : Poll}
    (hreach : Reachable s) (hactive : s.activePoll = some poll) :
    calculatePercentages s.pollResults (some poll) =
      poll.options.map (fun opt =>
        ⟨opt.id, ((assocGet s.pollResults opt.id).getD 0 : Rat) /
          (totalTally s : Rat) * 100⟩) ∧
    (totalTally s ≠ 0 →
      ((calculatePercentages s.pollResults (some poll)).map ResultEntry.percentage).sum
        = 100) ∧
    (totalTally s = 0 →
      ∀ e ∈ calculatePercentages s.pollResults (some poll), e.percentage = 0) := by
  obtain ⟨_, hkeys, hrange⟩ := (reachable_invariant hreach).1 poll hactive
  have hnd : (s.pollResults.map Prod.fst).Nodup := by
    rw [hkeys, hrange]
    exact List.nodup_range _
  have hform : calculatePercentages s.pollResults (some poll) =
      poll.options.map (fun opt =>
        ⟨opt.id, ((assocGet s.pollResults opt.id).getD 0 : Rat) /
          (totalTally s : Rat) * 100⟩) := by
    by_cases hT : ((s.pollResults.map Prod.snd).sum : Nat) = 0
    · show (if (s.pollResults.map Prod.snd).sum = 0 then _ else _) = _
      rw [if_pos hT]
      apply List.map_congr_left
      intro opt _
      have : (totalTally s : Rat) = 0 := by
        rw [totalTally, hT]
        exact Nat.cast_zero
      rw [this, div_zero, zero_mul]
    · show (if (s.pollResults.map Prod.snd).sum = 0 then _ else _) = _
      rw [if_neg hT]
      rfl
  have hcounts : poll.options.map (fun opt => (assocGet s.pollResults opt.id).getD 0) =
      s.pollResults.map Prod.snd := by
    have h1 : poll.options.map (fun opt => (assocGet s.pollResults opt.id).getD 0) =
        (poll.options.map PollOption.id).map
          (fun k => (assocGet s.pollResults k).getD 0) := by
      rw [List.map_map]
      rfl
    rw [h1, ← hkeys]
    exact map_assocGet_eq_values rfl hnd
  refine ⟨hform, ?_, ?_⟩
  · intro hT
    have hlist : (calculatePercentages s.pollResults (some poll)).map
        ResultEntry.percentage =
        (poll.options.map (fun opt => (assocGet s.pollResults opt.id).getD 0)).map
          (fun x : Nat => (x : Rat) / (totalTally s : Rat) * 100) := by
      rw [hform, List.map_map, List.map_map]
      rfl
    rw [hlist, hcounts, sum_map_div_mul]
    have hcast : ((s.pollResults.map Prod.snd).map (fun x : Nat => (x : Rat))).sum =
        (totalTally s : Rat) := by
      rw [totalTally]
      exact (Nat.cast_list_sum _).symm
    rw [hcast, div_self (Nat.cast_ne_zero.mpr hT), one_mul]
  · intro hT e he
    rw [hform] at he
    obtain ⟨opt, _, rfl⟩ := List.mem_map.mp he
    show ((assocGet s.pollResults opt.id).getD 0 : Rat) / (totalTally s : Rat) * 100 = 0
    rw [hT]
    rw [Nat.cast_zero, div_zero, zero_mul]

/-- Witness for C3: after Alice and Bob vote, the two percentages (50 and
50) sum to 100. -/
theorem calculatePercentages_spec_witness :
    Reachable demoState2 ∧
    ((calculatePercentages demoState2.pollResults (some demoPoll)).map
      ResultEntry.percentage).sum = 100 :=
  ⟨⟨demoVotes, rfl⟩,
    (calculatePercentages_spec ⟨demoVotes, rfl⟩ rfl).2.1 (by decide)⟩

end PollingSystem
